import Mathlib

/-!
# Verification of DKM (`include/dkm.hpp`), a generic k-means implementation

Shallow embedding of the single-header k-means library: Lloyd's algorithm with
k-means++ initialization, a fixed linear-congruential random engine, and a
centroid-drift convergence check.

Modelling conventions:
* A C++ `std::array<T, N>` point with signed arithmetic scalar `T` is modelled
  as `Point n := Fin n → ℚ` (exact signed arithmetic; division is exact).
* `std::vector` is modelled as `List`; out-of-range `operator[]` reads (which
  are undefined behaviour in C++ and unreachable on the valid inputs the
  claims quantify over) are modelled with `List.getD` and a zero default.
* `assert(...)` failures are modelled as `Option.none` results: the spec
  treats them as fatal precondition failures.
* The `std::linear_congruential_engine<uint64_t, 6364136223846793005,
  1442695040888963407, UINT64_MAX>` recurrence is modelled exactly
  (note the modulus is `2^64 - 1`, not `2^64`).
* `std::uniform_int_distribution` / `std::discrete_distribution` internals are
  not part of this repository; they are modelled from the spec's design notes
  ("draw a uniform index in [0, n)", "cumulative-weight scan with a defined
  fallback"); see `uniformDraw` / `discreteDraw`.
* The accumulator arrays of `details::point_collection_epsilon` are declared
  without an initializer (dkm.hpp:60-61), so their initial contents are
  indeterminate; `pce_mean_from` carries that initial content (`residue`)
  explicitly, and the driver-loop guard uses the zero-residue reading — the
  theorems about the loop's results hold for any guard value.
-/

namespace dkm

/-- A data point: `std::array<T, N>` with `T` a signed arithmetic scalar,
modelled over `ℚ`. -/
abbrev Point (n : ℕ) := Fin n → ℚ

/-- The all-zeros point, `T()` in each component. -/
def zeroPt (n : ℕ) : Point n := fun _ => 0

/-- `details::distance_squared` (dkm.hpp:38-46): sum over all components of
the squared per-component difference. -/
def distance_squared {n : ℕ} (point_a point_b : Point n) : ℚ :=
  ∑ i, (point_a i - point_b i) * (point_a i - point_b i)

/-- `details::closest_mean`'s scan loop (dkm.hpp:157-163):
`for (size_t i = 1; i < means.size(); ++i)` keeping the strictly smaller
squared distance and its index. The still-unscanned suffix `means.drop i` is
carried as the recursion argument alongside the absolute index `i`. -/
def closest_mean_loop {n : ℕ} (point : Point n) :
    List (Point n) → ℕ → ℚ → ℕ → ℕ
  | [], _, _, index => index
  | m :: rest, i, smallest, index =>
      let d := distance_squared point m
      if d < smallest then closest_mean_loop point rest (i + 1) d i
      else closest_mean_loop point rest (i + 1) smallest index

/-- `details::closest_mean` (dkm.hpp:151-165). The empty-means case is an
`assert` violation in the source; it is unreachable from `kmeans_lloyd`. -/
def closest_mean {n : ℕ} (point : Point n) (means : List (Point n)) : ℕ :=
  match means with
  | [] => 0
  | m0 :: rest =>
      closest_mean_loop point rest 1 (distance_squared point m0) 0

/-- `details::calculate_clusters` (dkm.hpp:170-178): one closest-mean index
per data point, in dataset order. -/
def calculate_clusters {n : ℕ} (data means : List (Point n)) : List ℕ :=
  data.map (fun point => closest_mean point means)

/-- Accumulation loop of `details::calculate_means` (dkm.hpp:190-196):
`for (size_t i = 0; i < std::min(clusters.size(), data.size()); ++i)`,
adding point `i` into the running sum and count of its assigned cluster.
The index-paired traversal over the overlapping length is the `List.zip` of
data and clusters. -/
def calc_means_acc {n : ℕ} :
    List (Point n × ℕ) → List (Point n) → List ℚ → List (Point n) × List ℚ
  | [], sums, counts => (sums, counts)
  | (p, c) :: rest, sums, counts =>
      calc_means_acc rest
        (sums.set c (fun j => sums.getD c (zeroPt n) j + p j))
        (counts.set c (counts.getD c 0 + 1))

/-- `details::calculate_means` (dkm.hpp:183-207): `means(k)` is value
initialized (all zeros), sums and counts are accumulated over the overlapping
length, then each cluster `i < k` is averaged, or copied from `old_means`
when its count is zero. -/
def calculate_means {n : ℕ} (data : List (Point n)) (clusters : List ℕ)
    (old_means : List (Point n)) (k : ℕ) : List (Point n) :=
  let acc := calc_means_acc (data.zip clusters)
    (List.replicate k (zeroPt n)) (List.replicate k 0)
  (List.range k).map (fun i =>
    if acc.2.getD i 0 = 0 then old_means.getD i (zeroPt n)
    else fun j => acc.1.getD i (zeroPt n) j / acc.2.getD i 0)

/-- `details::closest_distance` (dkm.hpp:82-97): for each data point, the
smallest squared distance to any current mean, seeded with the distance to
`means[0]` and refined by a strictly-smaller scan over all means. The `k`
argument is only used to `reserve` in the source and does not affect the
result. -/
def closest_distance {n : ℕ} (means data : List (Point n)) (_k : ℕ) : List ℚ :=
  data.map (fun d =>
    means.foldl
      (fun closest m =>
        if distance_squared d m < closest then distance_squared d m else closest)
      (distance_squared d (means.getD 0 (zeroPt n))))

/-! ## The random engine and its draws -/

/-- Multiplier of the `std::linear_congruential_engine` at dkm.hpp:119. -/
def lcg_a : ℕ := 6364136223846793005

/-- Increment of the `std::linear_congruential_engine` at dkm.hpp:119. -/
def lcg_c : ℕ := 1442695040888963407

/-- Modulus of the `std::linear_congruential_engine` at dkm.hpp:119:
`UINT64_MAX`, i.e. `2^64 - 1` (not `2^64`). -/
def lcg_m : ℕ := 2 ^ 64 - 1

/-- One step of the engine: `x ← (a·x + c) mod m`. `operator()` advances the
state and returns it. -/
def lcg_next (x : ℕ) : ℕ := (lcg_a * x + lcg_c) % lcg_m

/-- Engine construction from a seed value `s` (already converted to
`uint64_t`): the C++ standard sets the state to `1` when both `c mod m` and
`s mod m` are zero, else to `s mod m`. -/
def lcg_init (s : ℕ) : ℕ :=
  if lcg_c % lcg_m = 0 ∧ s % lcg_m = 0 then 1 else s % lcg_m

/-- Conversion of an `int` seed to the engine's `uint64_t` seed argument:
two's-complement modular conversion. -/
def intToUInt64 (s : ℤ) : ℕ := (s % (2 ^ 64 : ℕ)).toNat

/-- Conversion of the 32-bit `std::random_device` output to the `int` local
`seed` (dkm.hpp:117): two's-complement wrap of the unsigned value. -/
def entropyToInt (e : ℕ) : ℤ :=
  ((e : ℤ) + 2 ^ 31) % 2 ^ 32 - 2 ^ 31

/-- Seed selection at dkm.hpp:113-118: the caller's `defaultSeed` unless it is
the sentinel `-1`, in which case one draw from the system entropy source
(modelled as the explicit `entropy` input) is used. -/
def effective_seed (defaultSeed : ℤ) (entropy : ℕ) : ℤ :=
  if defaultSeed = -1 then entropyToInt entropy else defaultSeed

/-- Modelled from the spec: `std::uniform_int_distribution(0, n-1)` applied to
the engine — the standard leaves the mapping from engine output to the range
implementation-defined, and the spec specifies only "draw a uniform index in
[0, n)". Modelled as one engine draw reduced mod `n` (`b - a + 1 = n`).
Returns the drawn index and the advanced engine state. -/
def uniformDraw (s : ℕ) (n : ℕ) : ℕ × ℕ :=
  let s' := lcg_next s
  (s' % n, s')

/-- Cumulative-weight scan (from the spec's design notes): first index whose
running weight total exceeds the target; when the target is at or beyond the
total, the scan runs off the end and yields `weights.length` — the boundary
artifact the source's fallback clamps. -/
def pickWeighted : List ℚ → ℚ → ℕ → ℕ
  | [], _, i => i
  | w :: rest, target, i =>
      if target < w then i else pickWeighted rest (target - w) (i + 1)

/-- Modelled from the spec: `std::discrete_distribution(weights)` applied to
the engine — the standard leaves the sampling algorithm
implementation-defined, and the spec specifies "a cumulative-weight scan with
a defined fallback (select index 0) when the cumulative weight is zero or
rounding pushes the drawn index out of range"; the fallback itself is in the
source (dkm.hpp:139-142), so the degenerate all-zero-weight case here yields
the out-of-range index `weights.length` for the source to clamp. One engine
draw is scaled into `[0, total)` as the scan target. -/
def discreteDraw (s : ℕ) (weights : List ℚ) : ℕ × ℕ :=
  let s' := lcg_next s
  let total := weights.sum
  if total ≤ 0 then (weights.length, s')
  else (pickWeighted weights ((s' : ℚ) / (lcg_m : ℚ) * total) 0, s')

/-! ## k-means++ initialization -/

/-- The `for (uint32_t count = 1; count < k; ++count)` loop of
`details::random_plusplus` (dkm.hpp:127-144): weighted draw by closest
distance, the `index == probabilities().size()` fallback to 0
(`probabilities().size()` is the number of supplied weights, here
`distances.length`), and a push of the selected data point. The loop counter
is carried as the remaining trip count `k - count`. -/
def rpp_loop {n : ℕ} (data : List (Point n)) (k : ℕ) :
    ℕ → List (Point n) → ℕ → List (Point n)
  | 0, means, _ => means
  | remaining + 1, means, s =>
      let distances := closest_distance means data k
      let drawn := discreteDraw s distances
      let index := if drawn.1 = distances.length then 0 else drawn.1
      rpp_loop data k remaining (means ++ [data.getD index (zeroPt n)]) drawn.2

/-- `details::random_plusplus` (dkm.hpp:106-146): `assert(k > 0)` (modelled as
`none`) before any sampling, seed selection, engine construction, a uniform
first pick, then `k - 1` distance-weighted picks. -/
def random_plusplus {n : ℕ} (data : List (Point n)) (k : ℕ)
    (defaultSeed : ℤ) (entropy : ℕ) : Option (List (Point n)) :=
  if k = 0 then none
  else
    let s0 := lcg_init (intToUInt64 (effective_seed defaultSeed entropy))
    let first := uniformDraw s0 data.length
    some (rpp_loop data k (k - 1) [data.getD first.1 (zeroPt n)] first.2)

/-! ## Convergence check and driver -/

/-- The per-dimension accumulation loop of
`details::point_collection_epsilon` (dkm.hpp:62-73), accumulating the
components of a point collection into an accumulator array and dividing by
the collection's size. dkm.hpp:60-61 declare the accumulator arrays
`means_a`/`means_b` without an initializer, so their initial contents are
indeterminate: `residue` is that initial content, made explicit. -/
def pce_mean_from {n : ℕ} (residue : Point n) (points : List (Point n)) :
    Point n :=
  fun dim => (points.foldl (fun acc p => acc + p dim) (residue dim)) /
    points.length

/-- The squared drift computed inside `details::point_collection_epsilon`
(dkm.hpp:56-77) for given initial accumulator contents `resa`/`resb`:
squared distance between the two accumulated quotients. The source returns
`sqrt` of this value; the square root and the comparison against epsilon are
handled together in `convergeGt`, since `√` leaves `ℚ`. -/
def point_collection_epsilon_sq_from {n : ℕ} (resa resb : Point n)
    (point_a point_b : List (Point n)) : ℚ :=
  distance_squared (pce_mean_from resa point_a) (pce_mean_from resb point_b)

/-- The zero-residue reading of the accumulation: what a value-initialized
accumulator would compute (and what the surrounding comment at dkm.hpp:53-55
intends). -/
def pce_mean {n : ℕ} (points : List (Point n)) : Point n :=
  pce_mean_from (zeroPt n) points

/-- The zero-residue reading of the squared drift. The driver-loop embedding
uses this reading for its guard; the shape/determinism/structure theorems
below hold for any guard value, so they do not depend on this choice. -/
def point_collection_epsilon_sq {n : ℕ} (point_a point_b : List (Point n)) : ℚ :=
  point_collection_epsilon_sq_from (zeroPt n) (zeroPt n) point_a point_b

/-- The loop guard `point_collection_epsilon(means, old_means) > epsilon`
(dkm.hpp:251), i.e. `√d² > ε`, expressed without leaving `ℚ`: for `d² ≥ 0`
this holds iff `ε < 0` or `ε² < d²` (proved as `convergeGt_iff_sqrt`). -/
def convergeGt {n : ℕ} (point_a point_b : List (Point n)) (epsilon : ℚ) : Bool :=
  decide (epsilon < 0) ||
    decide (epsilon * epsilon < point_collection_epsilon_sq point_a point_b)

/-- The `do { ... } while (...)` loop of `kmeans_lloyd` (dkm.hpp:245-251),
with `fuel = maxIter - count` on entry to each body: assignment against the
current means, mean update, then continue iff the drift exceeds epsilon and
the incremented counter is still below the maximum (`fuel ≥ 2`). -/
def lloyd_loop {n : ℕ} (data : List (Point n)) (k : ℕ) (epsilon : ℚ) :
    ℕ → List (Point n) → List (Point n) × List ℕ
  | fuel, means =>
    let clusters := calculate_clusters data means
    let new_means := calculate_means data clusters means k
    match fuel with
    | f + 2 =>
        if convergeGt new_means means epsilon then
          lloyd_loop data k epsilon (f + 1) new_means
        else (new_means, clusters)
    | _ => (new_means, clusters)

/-- `dkm::kmeans_lloyd` (dkm.hpp:232-254). The three `assert`s on `k`,
`maxIter` and `data.size()` are modelled as `none` results; on valid inputs
the k-means++ means are refined by the Lloyd loop and the final means are
returned with the last computed cluster assignment. The `entropy` argument
models the one `std::random_device` draw, consumed only when `seed = -1`. -/
def kmeans_lloyd {n : ℕ} (data : List (Point n)) (k : ℕ) (maxIter : ℤ)
    (seed : ℤ) (epsilon : ℚ) (entropy : ℕ) :
    Option (List (Point n) × List ℕ) :=
  if k = 0 then none
  else if maxIter ≤ 0 then none
  else if data.length < k then none
  else
    match random_plusplus data k seed entropy with
    | none => none
    | some means => some (lloyd_loop data k epsilon maxIter.toNat means)

/-! ## Spec-side definitions (for refinement statements) -/

/-- Spec §4.5 / glossary "centroid": the component-wise average of a set of
points. Written from the spec's words, to be compared with the source-derived
`pce_mean`. -/
def centroid {n : ℕ} (points : List (Point n)) : Point n :=
  fun dim => (points.map (fun p => p dim)).sum / points.length

/-! ## Basic lemmas -/

theorem distance_squared_nonneg {n : ℕ} (a b : Point n) :
    0 ≤ distance_squared a b := by
  unfold distance_squared
  exact Finset.sum_nonneg fun i _ => mul_self_nonneg _

theorem distance_squared_comm {n : ℕ} (a b : Point n) :
    distance_squared a b = distance_squared b a := by
  unfold distance_squared
  refine Finset.sum_congr rfl fun i _ => ?_
  ring

theorem calculate_clusters_length {n : ℕ} (data means : List (Point n)) :
    (calculate_clusters data means).length = data.length := by
  simp [calculate_clusters]

/-- Invariant-carrying specification of the `closest_mean` scan loop: if the
suffix from position `i` remains to scan, `index` is the first position among
the scanned prefix attaining the running minimum `smallest`, then the final
result is the first position of the whole list attaining the global minimum.
-/
theorem closest_mean_loop_spec {n : ℕ} (point : Point n)
    (means : List (Point n)) :
    ∀ (rest : List (Point n)) (i index : ℕ) (smallest : ℚ),
      means.drop i = rest →
      index < i →
      index < means.length →
      smallest = distance_squared point (means.getD index (zeroPt n)) →
      (∀ j, j < i → smallest ≤ distance_squared point (means.getD j (zeroPt n))) →
      (∀ j, j < index → smallest < distance_squared point (means.getD j (zeroPt n))) →
      closest_mean_loop point rest i smallest index < means.length ∧
      (∀ j, j < means.length →
        distance_squared point
            (means.getD (closest_mean_loop point rest i smallest index) (zeroPt n)) ≤
          distance_squared point (means.getD j (zeroPt n))) ∧
      (∀ j, j < closest_mean_loop point rest i smallest index →
        distance_squared point
            (means.getD (closest_mean_loop point rest i smallest index) (zeroPt n)) <
          distance_squared point (means.getD j (zeroPt n))) := by
  intro rest
  induction rest with
  | nil =>
    intro i index smallest hdrop hlt hbound hsm hall hfirst
    have hlen : means.length ≤ i := List.drop_eq_nil_iff.mp hdrop
    refine ⟨hbound, ?_, ?_⟩
    · intro j hj
      simpa [hsm] using hall j (lt_of_lt_of_le hj hlen)
    · intro j hj
      simpa [hsm] using hfirst j hj
  | cons m rest ih =>
    intro i index smallest hdrop hlt hbound hsm hall hfirst
    have hi : i < means.length := by
      by_contra hge
      rw [List.drop_eq_nil_of_le (Nat.le_of_not_lt hge)] at hdrop
      exact List.noConfusion hdrop
    have hcons := List.drop_eq_getElem_cons (l := means) hi
    rw [hdrop] at hcons
    have hm : m = means[i] := by
      have h := congrArg List.head? hcons
      rw [List.head?_cons, List.head?_cons] at h
      exact Option.some.inj h
    have hrest : means.drop (i + 1) = rest := by
      have h := congrArg List.tail hcons
      simpa using h.symm
    have hgetDi : means.getD i (zeroPt n) = means[i] := by
      simp [List.getD_eq_getElem?_getD, List.getElem?_eq_getElem hi]
    simp only [closest_mean_loop]
    by_cases hcmp : distance_squared point m < smallest
    · rw [if_pos hcmp]
      refine ih (i + 1) i (distance_squared point m) hrest (Nat.lt_succ_self i)
        hi (by rw [hgetDi, ← hm]) ?_ ?_
      · intro j hj
        rcases Nat.lt_succ_iff_lt_or_eq.mp hj with hj' | hj'
        · exact le_of_lt (lt_of_lt_of_le hcmp (hall j hj'))
        · subst hj'
          rw [hgetDi, ← hm]
      · intro j hj
        exact lt_of_lt_of_le hcmp (hall j hj)
    · rw [if_neg hcmp]
      push_neg at hcmp
      refine ih (i + 1) index smallest hrest (Nat.lt_succ_of_lt hlt)
        hbound hsm ?_ hfirst
      intro j hj
      rcases Nat.lt_succ_iff_lt_or_eq.mp hj with hj' | hj'
      · exact hall j hj'
      · subst hj'
        rw [hgetDi, ← hm]
        exact hcmp

/-- `closest_mean` returns an in-range index of minimal squared distance and,
among equal minima, the lowest index (shared helper behind C1 and C7). -/
theorem closest_mean_spec {n : ℕ} (point : Point n) (means : List (Point n))
    (h : means ≠ []) :
    closest_mean point means < means.length ∧
    (∀ j, j < means.length →
      distance_squared point (means.getD (closest_mean point means) (zeroPt n)) ≤
        distance_squared point (means.getD j (zeroPt n))) ∧
    (∀ j, j < closest_mean point means →
      distance_squared point (means.getD (closest_mean point means) (zeroPt n)) <
        distance_squared point (means.getD j (zeroPt n))) := by
  match means, h with
  | m0 :: rest, _ =>
    have h0 : (m0 :: rest).getD 0 (zeroPt n) = m0 := rfl
    have := closest_mean_loop_spec point (m0 :: rest) rest 1 0
      (distance_squared point m0) rfl Nat.zero_lt_one (by simp)
      (by rw [h0]) ?_ ?_
    · simpa [closest_mean] using this
    · intro j hj
      have hj0 : j = 0 := by omega
      subst hj0
      exact le_of_eq (by rw [h0])
    · intro j hj
      omega

theorem closest_mean_lt_length {n : ℕ} (point : Point n)
    (means : List (Point n)) (h : means ≠ []) :
    closest_mean point means < means.length :=
  (closest_mean_spec point means h).1

theorem calculate_means_length {n : ℕ} (data : List (Point n))
    (clusters : List ℕ) (old_means : List (Point n)) (k : ℕ) :
    (calculate_means data clusters old_means k).length = k := by
  simp [calculate_means]

theorem rpp_loop_length {n : ℕ} (data : List (Point n)) (k : ℕ) :
    ∀ (remaining : ℕ) (means : List (Point n)) (s : ℕ),
      (rpp_loop data k remaining means s).length = means.length + remaining := by
  intro remaining
  induction remaining with
  | zero => intro means s; simp [rpp_loop]
  | succ r ih =>
    intro means s
    simp only [rpp_loop]
    rw [ih]
    simp
    omega

theorem random_plusplus_length {n : ℕ} (data : List (Point n)) (k : ℕ)
    (defaultSeed : ℤ) (entropy : ℕ) (means : List (Point n))
    (h : random_plusplus data k defaultSeed entropy = some means) :
    means.length = k := by
  unfold random_plusplus at h
  by_cases hk : k = 0
  · rw [if_pos hk] at h
    exact absurd h (Option.noConfusion)
  · rw [if_neg hk] at h
    have h' := Option.some.inj h
    rw [← h', rpp_loop_length]
    simp
    omega

/-- The result of the Lloyd loop always has the shape
`(calculate_means data (calculate_clusters data prev) prev k,
calculate_clusters data prev)` for some intermediate means `prev` of length
`k`: the labels are computed against `prev`, the returned means are the
subsequent update (shared helper behind C1 and C4). -/
theorem lloyd_loop_result {n : ℕ} (data : List (Point n)) (k : ℕ) (eps : ℚ) :
    ∀ (fuel : ℕ) (means : List (Point n)), means.length = k →
      ∃ prev : List (Point n), prev.length = k ∧
        lloyd_loop data k eps fuel means =
          (calculate_means data (calculate_clusters data prev) prev k,
           calculate_clusters data prev) := by
  intro fuel
  induction fuel using Nat.strong_induction_on with
  | _ fuel ih =>
    intro means hmeans
    match fuel with
    | 0 => exact ⟨means, hmeans, by simp [lloyd_loop]⟩
    | 1 => exact ⟨means, hmeans, by simp [lloyd_loop]⟩
    | (f + 2) =>
      by_cases hc : convergeGt
          (calculate_means data (calculate_clusters data means) means k)
          means eps
      · have step : lloyd_loop data k eps (f + 2) means =
            lloyd_loop data k eps (f + 1)
              (calculate_means data (calculate_clusters data means) means k) := by
          simp only [lloyd_loop]
          rw [if_pos hc]
        obtain ⟨prev, hprev, heq⟩ := ih (f + 1) (by omega)
          (calculate_means data (calculate_clusters data means) means k)
          (calculate_means_length data _ means k)
        exact ⟨prev, hprev, by rw [step, heq]⟩
      · refine ⟨means, hmeans, ?_⟩
        simp only [lloyd_loop]
        rw [if_neg hc]

/-- `kmeans_lloyd` returning `some (m, c)` yields labels computed against the
means `prev` as they stood before the final update, and `m` as that final
update (shared helper behind C1 and C4). -/
theorem kmeans_lloyd_some {n : ℕ} (data : List (Point n)) (k : ℕ)
    (maxIter seed : ℤ) (eps : ℚ) (entropy : ℕ) (m : List (Point n)) (c : List ℕ)
    (h : kmeans_lloyd data k maxIter seed eps entropy = some (m, c)) :
    0 < k ∧ 0 < maxIter ∧ k ≤ data.length ∧
    ∃ prev : List (Point n), prev.length = k ∧
      c = calculate_clusters data prev ∧
      m = calculate_means data c prev k := by
  unfold kmeans_lloyd at h
  by_cases hk : k = 0
  · rw [if_pos hk] at h; exact absurd h (Option.noConfusion)
  rw [if_neg hk] at h
  by_cases hiter : maxIter ≤ 0
  · rw [if_pos hiter] at h; exact absurd h (Option.noConfusion)
  rw [if_neg hiter] at h
  by_cases hlen : data.length < k
  · rw [if_pos hlen] at h; exact absurd h (Option.noConfusion)
  rw [if_neg hlen] at h
  refine ⟨Nat.pos_of_ne_zero hk, by omega, by omega, ?_⟩
  cases hr : random_plusplus data k seed entropy with
  | none => rw [hr] at h; exact absurd h (Option.noConfusion)
  | some means =>
    rw [hr] at h
    simp only at h
    obtain ⟨prev, hprev, heq⟩ := lloyd_loop_result data k eps maxIter.toNat
      means (random_plusplus_length data k seed entropy means hr)
    rw [heq] at h
    have h' := Option.some.inj h
    refine ⟨prev, hprev, ?_, ?_⟩
    · exact (congrArg Prod.snd h').symm
    · have hm := (congrArg Prod.fst h').symm
      have hc := (congrArg Prod.snd h').symm
      simp only at hm hc
      rw [hm, hc]

/-- What the accumulation loop of `calculate_means` computes at a fixed
in-range cluster id `c`: lengths are preserved, the count at `c` grows by the
number of overlap entries assigned to `c`, and the sum at `c` grows by the
component-wise sum of those entries' points. -/
theorem calc_means_acc_spec {n : ℕ} (c : ℕ) :
    ∀ (l : List (Point n × ℕ)) (sums : List (Point n)) (counts : List ℚ),
      c < sums.length → c < counts.length →
      (calc_means_acc l sums counts).1.length = sums.length ∧
      (calc_means_acc l sums counts).2.length = counts.length ∧
      (calc_means_acc l sums counts).2.getD c 0 =
        counts.getD c 0 + ((l.filter (fun pc => pc.2 = c)).length : ℚ) ∧
      ∀ j, (calc_means_acc l sums counts).1.getD c (zeroPt n) j =
        sums.getD c (zeroPt n) j +
          ((l.filter (fun pc => pc.2 = c)).map (fun pc => pc.1 j)).sum := by
  intro l
  induction l with
  | nil =>
    intro sums counts hs hc
    simp [calc_means_acc]
  | cons pc rest ih =>
    obtain ⟨p, cid⟩ := pc
    intro sums counts hs hc
    simp only [calc_means_acc]
    have hs' : c < (sums.set cid
        (fun j => sums.getD cid (zeroPt n) j + p j)).length := by simpa using hs
    have hc' : c < (counts.set cid (counts.getD cid 0 + 1)).length := by
      simpa using hc
    obtain ⟨ih1, ih2, ih3, ih4⟩ := ih _ _ hs' hc'
    by_cases hcc : cid = c
    · subst hcc
      refine ⟨by simpa using ih1, by simpa using ih2, ?_, ?_⟩
      · rw [ih3]
        have hset : (counts.set cid (counts.getD cid 0 + 1)).getD cid 0 =
            counts.getD cid 0 + 1 := by
          simp [List.getD_eq_getElem?_getD, List.getElem?_set_self hc]
        rw [hset, List.filter_cons]
        simp
        ring
      · intro j
        rw [ih4 j]
        have hset : (sums.set cid
            (fun j' => sums.getD cid (zeroPt n) j' + p j')).getD cid (zeroPt n) =
            fun j' => sums.getD cid (zeroPt n) j' + p j' := by
          simp [List.getD_eq_getElem?_getD, List.getElem?_set_self hs]
        rw [hset, List.filter_cons]
        simp
        ring
    · refine ⟨by simpa using ih1, by simpa using ih2, ?_, ?_⟩
      · rw [ih3]
        have hset : (counts.set cid (counts.getD cid 0 + 1)).getD c 0 =
            counts.getD c 0 := by
          simp [List.getD_eq_getElem?_getD, List.getElem?_set_ne hcc]
        rw [hset, List.filter_cons]
        simp [hcc]
      · intro j
        rw [ih4 j]
        have hset : (sums.set cid
            (fun j' => sums.getD cid (zeroPt n) j' + p j')).getD c (zeroPt n) =
            sums.getD c (zeroPt n) := by
          simp [List.getD_eq_getElem?_getD, List.getElem?_set_ne hcc]
        rw [hset, List.filter_cons]
        simp [hcc]

/-- The entry of `calculate_means` at an in-range cluster id `c`, as a
conditional on the number of overlap entries assigned to `c`. -/
theorem calculate_means_getD {n : ℕ} (data : List (Point n))
    (clusters : List ℕ) (old_means : List (Point n)) (k c : ℕ) (hck : c < k) :
    (calculate_means data clusters old_means k).getD c (zeroPt n) =
      if (((data.zip clusters).filter (fun pc => pc.2 = c)).length : ℚ) = 0 then
        old_means.getD c (zeroPt n)
      else fun j =>
        (((data.zip clusters).filter (fun pc => pc.2 = c)).map
            (fun pc => pc.1 j)).sum /
          (((data.zip clusters).filter (fun pc => pc.2 = c)).length : ℚ) := by
  have hs : c < (List.replicate k (zeroPt n)).length := by simpa using hck
  have hc : c < (List.replicate k (0 : ℚ)).length := by simpa using hck
  obtain ⟨_, _, h3, h4⟩ := calc_means_acc_spec c (data.zip clusters)
    (List.replicate k (zeroPt n)) (List.replicate k 0) hs hc
  have hrep0 : (List.replicate k (0 : ℚ)).getD c 0 = 0 := by
    simp [List.getD_eq_getElem?_getD, List.getElem?_replicate_of_lt hck]
  have hrepz : ∀ j, (List.replicate k (zeroPt n)).getD c (zeroPt n) j = 0 := by
    intro j
    simp [List.getD_eq_getElem?_getD, List.getElem?_replicate_of_lt hck, zeroPt]
  rw [hrep0] at h3
  unfold calculate_means
  have hmap : ((List.range k).map (fun i =>
      if (calc_means_acc (data.zip clusters) (List.replicate k (zeroPt n))
            (List.replicate k 0)).2.getD i 0 = 0 then
        old_means.getD i (zeroPt n)
      else fun j =>
        (calc_means_acc (data.zip clusters) (List.replicate k (zeroPt n))
              (List.replicate k 0)).1.getD i (zeroPt n) j /
          (calc_means_acc (data.zip clusters) (List.replicate k (zeroPt n))
              (List.replicate k 0)).2.getD i 0)).getD c (zeroPt n) =
      if (calc_means_acc (data.zip clusters) (List.replicate k (zeroPt n))
            (List.replicate k 0)).2.getD c 0 = 0 then
        old_means.getD c (zeroPt n)
      else fun j =>
        (calc_means_acc (data.zip clusters) (List.replicate k (zeroPt n))
              (List.replicate k 0)).1.getD c (zeroPt n) j /
          (calc_means_acc (data.zip clusters) (List.replicate k (zeroPt n))
              (List.replicate k 0)).2.getD c 0 := by
    rw [List.getD_eq_getElem?_getD, List.getElem?_map, List.getElem?_range hck]
    simp
  rw [hmap, h3]
  simp only [zero_add]
  by_cases hzero :
      (((data.zip clusters).filter (fun pc => pc.2 = c)).length : ℚ) = 0
  · rw [if_pos hzero, if_pos hzero]
  · rw [if_neg hzero, if_neg hzero]
    funext j
    rw [h4 j, hrepz j, zero_add]

/-! ## Convergence-check lemmas -/

theorem point_collection_epsilon_sq_nonneg {n : ℕ}
    (a b : List (Point n)) : 0 ≤ point_collection_epsilon_sq a b :=
  distance_squared_nonneg _ _

/-- Only under zero accumulator residue does the accumulation loop of
`point_collection_epsilon` compute the spec's centroid (component-wise
average); the source does not establish the zero residue. -/
theorem pce_mean_eq_centroid {n : ℕ} (points : List (Point n)) :
    pce_mean points = centroid points := by
  funext dim
  unfold pce_mean pce_mean_from centroid zeroPt
  rw [List.sum_eq_foldl, List.foldl_map]

/-- The loop guard `convergeGt` holds exactly when the square root of the
computed squared drift exceeds epsilon. -/
theorem convergeGt_iff_sqrt {n : ℕ} (a b : List (Point n)) (eps : ℚ) :
    convergeGt a b eps = true ↔
      (eps : ℝ) < Real.sqrt ((point_collection_epsilon_sq a b : ℚ) : ℝ) := by
  unfold convergeGt
  rw [Bool.or_eq_true, decide_eq_true_iff, decide_eq_true_iff]
  constructor
  · rintro (hneg | hlt)
    · calc ((eps : ℝ)) < 0 := by exact_mod_cast hneg
        _ ≤ Real.sqrt _ := Real.sqrt_nonneg _
    · by_cases hneg : eps < 0
      · calc ((eps : ℝ)) < 0 := by exact_mod_cast hneg
          _ ≤ Real.sqrt _ := Real.sqrt_nonneg _
      · push_neg at hneg
        have heps : (0 : ℝ) ≤ (eps : ℝ) := by exact_mod_cast hneg
        rw [Real.lt_sqrt heps]
        have : ((eps * eps : ℚ) : ℝ) < ((point_collection_epsilon_sq a b : ℚ) : ℝ) := by
          exact_mod_cast hlt
        calc ((eps : ℝ)) ^ 2 = ((eps * eps : ℚ) : ℝ) := by push_cast; ring
          _ < _ := this
  · intro hlt
    by_cases hneg : eps < 0
    · exact Or.inl hneg
    · push_neg at hneg
      right
      have heps : (0 : ℝ) ≤ (eps : ℝ) := by exact_mod_cast hneg
      rw [Real.lt_sqrt heps] at hlt
      have : ((eps * eps : ℚ) : ℝ) < ((point_collection_epsilon_sq a b : ℚ) : ℝ) := by
        calc ((eps * eps : ℚ) : ℝ) = ((eps : ℝ)) ^ 2 := by push_cast; ring
          _ < _ := hlt
      exact_mod_cast this

/-! ## Claim theorems -/

set_option maxRecDepth 10000

/-- C1: for every dataset, `k > 0`, `maxIter > 0` with dataset length ≥ `k`,
`kmeans_lloyd` returns a pair whose cluster assignment has length equal to
the dataset length, every assignment value lies in `[0, k)` (values are
naturals, so only the upper bound is substantive), and the returned means
have length exactly `k`. -/
theorem kmeans_lloyd_output_shape {n : ℕ} (data : List (Point n)) (k : ℕ)
    (maxIter seed : ℤ) (eps : ℚ) (entropy : ℕ) (hk : 0 < k)
    (_hiter : 0 < maxIter) (_hlen : k ≤ data.length) (m : List (Point n))
    (c : List ℕ) (h : kmeans_lloyd data k maxIter seed eps entropy = some (m, c)) :
    c.length = data.length ∧ (∀ x ∈ c, x < k) ∧ m.length = k := by
  obtain ⟨-, -, -, prev, hprev, hcc, hmm⟩ :=
    kmeans_lloyd_some data k maxIter seed eps entropy m c h
  have hne : prev ≠ [] := by
    intro he
    rw [he] at hprev
    simp at hprev
    omega
  refine ⟨?_, ?_, ?_⟩
  · rw [hcc]
    exact calculate_clusters_length data prev
  · intro x hx
    rw [hcc] at hx
    unfold calculate_clusters at hx
    obtain ⟨pt, _, rfl⟩ := List.mem_map.mp hx
    have := closest_mean_lt_length pt prev hne
    rwa [hprev] at this
  · rw [hmm]
    exact calculate_means_length data c prev k

theorem kmeans_lloyd_output_shape_witness :
    ([0] : List ℕ).length = ([zeroPt 1] : List (Point 1)).length ∧
    (∀ x ∈ ([0] : List ℕ), x < 1) ∧ ([zeroPt 1] : List (Point 1)).length = 1 :=
  kmeans_lloyd_output_shape [zeroPt 1] 1 1 0 0 0 (by decide) (by decide)
    (by decide) [zeroPt 1] [0] (by with_unfolding_all decide)

/-- C2 (code_bug evidence): the claim — the convergence scalar equals the
non-squared Euclidean distance between the centroids of the old and new mean
sets — is the documented intent of `details::point_collection_epsilon`
(its own comment, dkm.hpp:53-55), but the source accumulates into
`std::array` locals declared without an initializer (dkm.hpp:60-61), so the
computed scalar depends on the accumulators' indeterminate initial contents.
At the concrete input old = new = `[[0]]`, the claimed scalar is `√0 = 0`,
yet an execution whose `means_a` holds residue 1 computes squared drift 1
(scalar `√1 = 1`); only the zero-residue execution, which the source does
not establish, agrees with the claim. -/
theorem point_collection_epsilon_uninitialized_residue :
    point_collection_epsilon_sq_from (fun _ => (1 : ℚ)) (zeroPt 1)
      [zeroPt 1] [zeroPt 1] = 1 ∧
    distance_squared (centroid ([zeroPt 1] : List (Point 1)))
      (centroid [zeroPt 1]) = 0 ∧
    point_collection_epsilon_sq_from (zeroPt 1) (zeroPt 1)
      [zeroPt 1] [zeroPt 1] = 0 := by
  refine ⟨?_, ?_, ?_⟩ <;> with_unfolding_all decide

/-- C4: the cluster assignment returned by `kmeans_lloyd` was computed by
`calculate_clusters` against the means `prev` as they stood before the final
mean update, while the returned means are the subsequent
`calculate_means` of that very assignment — so the two need not be mutually
consistent at return. -/
theorem returned_assignment_pre_update {n : ℕ} (data : List (Point n))
    (k : ℕ) (maxIter seed : ℤ) (eps : ℚ) (entropy : ℕ) (m : List (Point n))
    (c : List ℕ) (h : kmeans_lloyd data k maxIter seed eps entropy = some (m, c)) :
    ∃ prev : List (Point n), prev.length = k ∧
      c = calculate_clusters data prev ∧
      m = calculate_means data c prev k :=
  (kmeans_lloyd_some data k maxIter seed eps entropy m c h).2.2.2

theorem returned_assignment_pre_update_witness :
    ∃ prev : List (Point 1), prev.length = 1 ∧
      ([0] : List ℕ) = calculate_clusters [zeroPt 1] prev ∧
      [zeroPt 1] = calculate_means [zeroPt 1] [0] prev 1 :=
  returned_assignment_pre_update [zeroPt 1] 1 1 0 0 0 [zeroPt 1] [0]
    (by with_unfolding_all decide)

/-- C5: for any cluster id `c < k` with at least one dataset point assigned
to it (within the overlapping length of the assignment and dataset
sequences, which is what the update iterates over), `calculate_means`
produces for `c` the per-component arithmetic average of exactly those
points. -/
theorem calculate_means_cluster_average {n : ℕ} (data : List (Point n))
    (clusters : List ℕ) (old_means : List (Point n)) (k c : ℕ) (hck : c < k)
    (hne : (data.zip clusters).filter (fun pc => pc.2 = c) ≠ []) :
    (data.zip clusters).length = min data.length clusters.length ∧
    (calculate_means data clusters old_means k).getD c (zeroPt n) = fun j =>
      (((data.zip clusters).filter (fun pc => pc.2 = c)).map
          (fun pc => pc.1 j)).sum /
        (((data.zip clusters).filter (fun pc => pc.2 = c)).length : ℚ) := by
  refine ⟨List.length_zip data clusters, ?_⟩
  rw [calculate_means_getD data clusters old_means k c hck, if_neg]
  intro h0
  exact hne (List.length_eq_zero.mp (by exact_mod_cast h0))

theorem calculate_means_cluster_average_witness :
    (([zeroPt 1] : List (Point 1)).zip [0]).length = min 1 1 ∧
    (calculate_means [zeroPt 1] [0] [zeroPt 1] 1).getD 0 (zeroPt 1) = fun j =>
      (((([zeroPt 1] : List (Point 1)).zip [0]).filter
          (fun pc => pc.2 = 0)).map (fun pc => pc.1 j)).sum /
        (((([zeroPt 1] : List (Point 1)).zip [0]).filter
          (fun pc => pc.2 = 0)).length : ℚ) := by
  have h := calculate_means_cluster_average [zeroPt 1] [0] [zeroPt 1] 1 0
    (by decide) (by with_unfolding_all decide)
  simpa using h

/-- C6: if no dataset point (within the overlapping length the update
iterates over) is assigned to cluster id `c < k`, then `calculate_means`
leaves mean `c` exactly equal to its value in the previous means. -/
theorem calculate_means_empty_cluster_unchanged {n : ℕ}
    (data : List (Point n)) (clusters : List ℕ) (old_means : List (Point n))
    (k c : ℕ) (hck : c < k)
    (hnone : (data.zip clusters).filter (fun pc => pc.2 = c) = []) :
    (calculate_means data clusters old_means k).getD c (zeroPt n) =
      old_means.getD c (zeroPt n) := by
  rw [calculate_means_getD data clusters old_means k c hck, if_pos]
  rw [hnone]
  simp

theorem calculate_means_empty_cluster_unchanged_witness :
    (calculate_means [zeroPt 1] [1] [(fun _ => 5 : Point 1), (fun _ => 7)] 2).getD 0
        (zeroPt 1) =
      [(fun _ => 5 : Point 1), (fun _ => 7)].getD 0 (zeroPt 1) :=
  calculate_means_empty_cluster_unchanged [zeroPt 1] [1]
    [(fun _ => 5 : Point 1), (fun _ => 7)] 2 0 (by decide)
    (by with_unfolding_all decide)

/-- C7: for every point and non-empty means list, `closest_mean` returns an
in-range index whose mean attains the minimum squared Euclidean distance to
the point, and every index below the returned one has strictly larger
distance — so ties are broken by the lowest index. (The step is a pure
function of its inputs in this embedding, mutating neither dataset nor
means.) -/
theorem closest_mean_min_first {n : ℕ} (point : Point n)
    (means : List (Point n)) (h : means ≠ []) :
    closest_mean point means < means.length ∧
    (∀ j, j < means.length →
      distance_squared point (means.getD (closest_mean point means) (zeroPt n)) ≤
        distance_squared point (means.getD j (zeroPt n))) ∧
    (∀ j, j < closest_mean point means →
      distance_squared point (means.getD (closest_mean point means) (zeroPt n)) <
        distance_squared point (means.getD j (zeroPt n))) :=
  closest_mean_spec point means h

theorem closest_mean_min_first_witness :
    closest_mean (zeroPt 1) [(fun _ => 1 : Point 1), (fun _ => 0)] <
      [(fun _ => 1 : Point 1), (fun _ => 0)].length ∧
    (∀ j, j < [(fun _ => 1 : Point 1), (fun _ => 0)].length →
      distance_squared (zeroPt 1)
          ([(fun _ => 1 : Point 1), (fun _ => 0)].getD
            (closest_mean (zeroPt 1) [(fun _ => 1 : Point 1), (fun _ => 0)])
            (zeroPt 1)) ≤
        distance_squared (zeroPt 1)
          ([(fun _ => 1 : Point 1), (fun _ => 0)].getD j (zeroPt 1))) ∧
    (∀ j, j < closest_mean (zeroPt 1) [(fun _ => 1 : Point 1), (fun _ => 0)] →
      distance_squared (zeroPt 1)
          ([(fun _ => 1 : Point 1), (fun _ => 0)].getD
            (closest_mean (zeroPt 1) [(fun _ => 1 : Point 1), (fun _ => 0)])
            (zeroPt 1)) <
        distance_squared (zeroPt 1)
          ([(fun _ => 1 : Point 1), (fun _ => 0)].getD j (zeroPt 1))) :=
  closest_mean_min_first (zeroPt 1) [(fun _ => 1 : Point 1), (fun _ => 0)]
    (by decide)

/-- C8: with maximum iterations = 1, `kmeans_lloyd` returns after exactly one
assignment pass and one mean-update pass, regardless of the convergence
scalar: the returned assignment is the first computed assignment against the
initial means `m0` and the returned means are the result of the first
update. -/
theorem kmeans_lloyd_single_iteration {n : ℕ} (data : List (Point n))
    (k : ℕ) (seed : ℤ) (eps : ℚ) (entropy : ℕ) (hk : 0 < k)
    (hlen : k ≤ data.length) (m0 : List (Point n))
    (hrpp : random_plusplus data k seed entropy = some m0) :
    kmeans_lloyd data k 1 seed eps entropy =
      some (calculate_means data (calculate_clusters data m0) m0 k,
        calculate_clusters data m0) := by
  unfold kmeans_lloyd
  rw [if_neg (by omega), if_neg (by norm_num), if_neg (by omega), hrpp]
  simp only [Int.toNat_one, lloyd_loop]

theorem kmeans_lloyd_single_iteration_witness :
    kmeans_lloyd [zeroPt 1] 1 1 0 0 0 =
      some (calculate_means [zeroPt 1]
          (calculate_clusters [zeroPt 1] [zeroPt 1]) [zeroPt 1] 1,
        calculate_clusters [zeroPt 1] [zeroPt 1]) :=
  kmeans_lloyd_single_iteration [zeroPt 1] 1 0 0 0 (by decide) (by decide)
    [zeroPt 1] (by with_unfolding_all decide)

/-- C9: with `k = 0`, or maximum iterations ≤ 0, or dataset length < `k`,
`kmeans_lloyd` fails with a precondition failure (modelled as `none`) before
any sampling or clustering work; in particular `random_plusplus` itself
rejects `k = 0` before any engine draw. -/
theorem kmeans_lloyd_precondition_failures {n : ℕ} (data : List (Point n))
    (k : ℕ) (maxIter seed : ℤ) (eps : ℚ) (entropy : ℕ)
    (h : k = 0 ∨ maxIter ≤ 0 ∨ data.length < k) :
    kmeans_lloyd data k maxIter seed eps entropy = none ∧
    ∀ (data2 : List (Point n)) (seed2 : ℤ) (entropy2 : ℕ),
      random_plusplus data2 0 seed2 entropy2 = none := by
  constructor
  · unfold kmeans_lloyd
    rcases h with h | h | h
    · rw [if_pos h]
    · by_cases hk : k = 0
      · rw [if_pos hk]
      · rw [if_neg hk, if_pos h]
    · by_cases hk : k = 0
      · rw [if_pos hk]
      · rw [if_neg hk]
        by_cases hit : maxIter ≤ 0
        · rw [if_pos hit]
        · rw [if_neg hit, if_pos h]
  · intro d s e
    simp [random_plusplus]

theorem kmeans_lloyd_precondition_failures_witness :
    kmeans_lloyd ([zeroPt 1]) 0 1 0 0 0 = none ∧
    ∀ (data2 : List (Point 1)) (seed2 : ℤ) (entropy2 : ℕ),
      random_plusplus data2 0 seed2 entropy2 = none :=
  kmeans_lloyd_precondition_failures [zeroPt 1] 0 1 0 0 0 (Or.inl rfl)

/-- C10: the seed value `-1` is a sentinel meaning "no seed": the effective
engine seed for `-1` (which is also the default argument, so an explicit
`-1` behaves exactly like omitting the seed) is drawn from the system
entropy source, any other seed is used as given, and consequently the
determinism guarantee does not extend to `seed = -1`: there are inputs on
which two invocations with `seed = -1` but different entropy draws return
different results. -/
theorem seed_sentinel_entropy :
    (∀ entropy : ℕ, effective_seed (-1) entropy = entropyToInt entropy) ∧
    (∀ (seed : ℤ) (entropy : ℕ), seed ≠ -1 →
      effective_seed seed entropy = seed) ∧
    ∃ (data : List (Point 1)) (k : ℕ) (maxIter : ℤ) (eps : ℚ) (e1 e2 : ℕ),
      kmeans_lloyd data k maxIter (-1) eps e1 ≠
        kmeans_lloyd data k maxIter (-1) eps e2 := by
  refine ⟨fun e => by simp [effective_seed],
    fun s e hs => by simp [effective_seed, hs], ?_⟩
  exact ⟨[(fun _ => 0), (fun _ => 1)], 2, 1, 0, 0, 1,
    by with_unfolding_all decide⟩

theorem seed_sentinel_entropy_witness :
    effective_seed (-1) 7 = entropyToInt 7 ∧ effective_seed 5 7 = 5 :=
  ⟨seed_sentinel_entropy.1 7, seed_sentinel_entropy.2.1 5 7 (by decide)⟩

end dkm
